import Mathlib

/-!
Verification of the MCP client core: the connection registry
(MCPClientManager in src/lib/mcp/storage.ts, client-manager section) and the
tool-calling orchestrator (POST handler in src/app/api/chat/route.ts).

The TypeScript code is shallowly embedded: the registry is a map from server
id to client instance, modelled as an association list with JavaScript Map
semantics (set overwrites, delete removes, get finds); asynchronous calls
whose outcome is decided by the outside world (protocol handshake, wire
responses, tool execution, image upload) are passed in as explicit outcome
parameters; thrown exceptions are modelled with Except.
-/

/-! ## Definitions: shallow embedding of the source -/

/-- ConnectionStatus from types.ts. -/
inductive ConnectionStatus
  | disconnected
  | connecting
  | connected
  | error
deriving DecidableEq, Repr

/-- ServerConnectionState from types.ts: serverId, status, optional error
message, optional connectedAt timestamp. -/
structure ServerConnectionState where
  serverId : String
  status : ConnectionStatus
  error : Option String := none
  connectedAt : Option Nat := none
deriving DecidableEq, Repr

/-- MCPServerConfig from types.ts. The transport field is kept as a raw
string because the config arrives from an unvalidated JSON request body, and
createTransport has an explicit default branch for unknown values. -/
structure MCPServerConfig where
  id : String
  name : String
  transport : String
  command : Option String := none
  args : Option (List String) := none
  env : Option (List (String × String)) := none
  url : Option String := none
deriving DecidableEq, Repr

/-- Map.get: the value stored under a key, if any. -/
def regGet {α : Type} : List (String × α) → String → Option α
  | [], _ => none
  | (k, v) :: rest, key => if k = key then some v else regGet rest key

/-- Map.set: overwrite the entry for a key, or append a new entry. -/
def regSet {α : Type} : List (String × α) → String → α → List (String × α)
  | [], key, v => [(key, v)]
  | (k, w) :: rest, key, v =>
    if k = key then (key, v) :: rest else (k, w) :: regSet rest key v

/-- Map.delete: drop every entry stored under a key. -/
def regDelete {α : Type} : List (String × α) → String → List (String × α)
  | [], _ => []
  | (k, v) :: rest, key =>
    if k = key then regDelete rest key else (k, v) :: regDelete rest key

/-- The three transport adapter kinds built by createTransport. -/
inductive Transport
  | stdio (command : String) (args : List String) (env : Option (List (String × String)))
  | streamableHttp (url : String)
  | sse (url : String)
deriving DecidableEq, Repr

/-- createTransport from storage.ts: switches on config.transport, throws on a
missing required parameter (JavaScript falsiness: an absent or empty command
or URL is rejected) and on an unsupported transport kind. Thrown errors are
modelled as Except.error carrying the message. -/
def createTransport (config : MCPServerConfig) : Except String Transport :=
  if config.transport = "stdio" then
    match config.command with
    | none => Except.error "STDIO transport requires a command"
    | some cmd =>
      if cmd = "" then Except.error "STDIO transport requires a command"
      else Except.ok (Transport.stdio cmd (config.args.getD []) config.env)
  else if config.transport = "streamable-http" then
    match config.url with
    | none => Except.error "Streamable HTTP transport requires a URL"
    | some u =>
      if u = "" then Except.error "Streamable HTTP transport requires a URL"
      else Except.ok (Transport.streamableHttp u)
  else if config.transport = "sse" then
    match config.url with
    | none => Except.error "SSE transport requires a URL"
    | some u =>
      if u = "" then Except.error "SSE transport requires a URL"
      else Except.ok (Transport.sse u)
  else
    Except.error ("Unsupported transport type: " ++ config.transport)

/-- ClientInstance from storage.ts: the live connection record stored in the
clients map. The protocol Client object itself carries no observable state in
the model beyond the instance that owns it. -/
structure ClientInstance where
  config : MCPServerConfig
  transport : Transport
  state : ServerConnectionState
deriving DecidableEq, Repr

/-- The clients map of MCPClientManager. -/
abbrev Registry := List (String × ClientInstance)

/-- MCPClientManager.disconnect: no-op when the id is absent; otherwise close
the client (the close outcome is swallowed, only logged) and, in a finally
block, delete the map entry. The closeOutcome parameter models the close
call; the result never depends on it. -/
def disconnect (reg : Registry) (serverId : String)
    (_closeOutcome : Except String Unit) : Registry :=
  match regGet reg serverId with
  | none => reg
  | some _ => regDelete reg serverId

/-- The try block of MCPClientManager.connect after the existing-instance
checks: build the transport, run the handshake (its outcome is the hs
parameter), and either store the connected instance or catch the thrown
error into the returned state. -/
def connectAttempt (reg : Registry) (config : MCPServerConfig)
    (hs : Except String Unit) (now : Nat) : ServerConnectionState × Registry :=
  match createTransport config with
  | Except.error msg =>
    ({ serverId := config.id, status := ConnectionStatus.error, error := some msg }, reg)
  | Except.ok transport =>
    match hs with
    | Except.error msg =>
      ({ serverId := config.id, status := ConnectionStatus.error, error := some msg }, reg)
    | Except.ok _ =>
      let st : ServerConnectionState :=
        { serverId := config.id, status := ConnectionStatus.connected,
          connectedAt := some now }
      (st, regSet reg config.id
        { config := config, transport := transport, state := st })

/-- MCPClientManager.connect: return the existing state unchanged when a
connected instance already exists; disconnect a stale instance first;
otherwise attempt the connection, reporting failure through the returned
state rather than raising. -/
def connect (reg : Registry) (config : MCPServerConfig)
    (hs : Except String Unit) (now : Nat) : ServerConnectionState × Registry :=
  match regGet reg config.id with
  | some existing =>
    if existing.state.status = ConnectionStatus.connected then
      (existing.state, reg)
    else
      connectAttempt (disconnect reg config.id (Except.ok ())) config hs now
  | none => connectAttempt reg config hs now

/-- MCPClientManager.getConnectionState: a synthetic disconnected state when
the id is absent, the stored state otherwise. -/
def getConnectionState (reg : Registry) (serverId : String) : ServerConnectionState :=
  match regGet reg serverId with
  | none => { serverId := serverId, status := ConnectionStatus.disconnected }
  | some inst => inst.state

/-- MCPClientManager.getClient: the stored instance, but only when its status
is connected; null otherwise. -/
def getClient (reg : Registry) (serverId : String) : Option ClientInstance :=
  match regGet reg serverId with
  | none => none
  | some inst =>
    if inst.state.status = ConnectionStatus.connected then some inst else none

/-- Opaque stand-in for a JSON value (tool input schemas, call arguments). -/
abbrev JsonValue := String

/-- MCPTool from types.ts. -/
structure MCPTool where
  name : String
  description : Option String := none
  inputSchema : Option JsonValue := none
deriving DecidableEq, Repr

/-- MCPPrompt from types.ts. -/
structure MCPPrompt where
  name : String
  description : Option String := none
  arguments : List (String × Option String × Option Bool) := []
deriving DecidableEq, Repr

/-- MCPResource from types.ts. -/
structure MCPResource where
  uri : String
  name : Option String := none
  description : Option String := none
  mimeType : Option String := none
deriving DecidableEq, Repr

/-- The message of the error thrown by the list and call operations when no
connected instance exists for the server id. -/
def notConnectedMsg (serverId : String) : String :=
  "Server " ++ serverId ++ " is not connected"

/-- MCPClientManager.listTools: throw when not connected, otherwise map the
wire tools (passed in as the outcome of the discovery call) to descriptors. -/
def listTools (reg : Registry) (serverId : String) (wire : List MCPTool) :
    Except String (List MCPTool) :=
  match getClient reg serverId with
  | none => Except.error (notConnectedMsg serverId)
  | some _ => Except.ok (wire.map fun t =>
      { name := t.name, description := t.description, inputSchema := t.inputSchema })

/-- MCPClientManager.listPrompts. -/
def listPrompts (reg : Registry) (serverId : String) (wire : List MCPPrompt) :
    Except String (List MCPPrompt) :=
  match getClient reg serverId with
  | none => Except.error (notConnectedMsg serverId)
  | some _ => Except.ok (wire.map fun p =>
      { name := p.name, description := p.description, arguments := p.arguments })

/-- MCPClientManager.listResources. -/
def listResources (reg : Registry) (serverId : String) (wire : List MCPResource) :
    Except String (List MCPResource) :=
  match getClient reg serverId with
  | none => Except.error (notConnectedMsg serverId)
  | some _ => Except.ok (wire.map fun r =>
      { uri := r.uri, name := r.name, description := r.description,
        mimeType := r.mimeType })

/-- One typed content block of a protocol call result. Blocks whose type tag
is neither text nor image are represented by the other constructor; the
normalizer skips them. -/
inductive ContentBlock
  | text (s : String)
  | image (data : String) (mimeType : Option String)
  | other
deriving DecidableEq, Repr

/-- A collected binary item: base64 data plus mime type. -/
structure BinaryItem where
  data : String
  mimeType : String
deriving DecidableEq, Repr

/-- The mime type stored for an image block: the block value, or image/png
when it is absent or empty (JavaScript falsiness of the or-default). -/
def mimeOrDefault : Option String → String
  | none => "image/png"
  | some m => if m = "" then "image/png" else m

/-- One step of the normalization loop body in callTool: a text block appends
to textContent with a newline separator only when the accumulator is already
nonempty; an image block is pushed with its defaulted mime type; any other
block is skipped. -/
def normalizeStep (acc : String × List BinaryItem) (item : ContentBlock) :
    String × List BinaryItem :=
  match item with
  | ContentBlock.text s =>
    (acc.1 ++ (if acc.1 ≠ "" then "\n" else "") ++ s, acc.2)
  | ContentBlock.image data mt =>
    (acc.1, acc.2 ++ [{ data := data, mimeType := mimeOrDefault mt }])
  | ContentBlock.other => acc

/-- The normalization loop of callTool over the content array. -/
def normalizeBlocks (blocks : List ContentBlock) : String × List BinaryItem :=
  blocks.foldl normalizeStep ("", [])

/-- The raw wire result of a protocol tool call: the content array may be
absent (the code guards with an Array.isArray check). -/
structure CallToolWire where
  content : Option (List ContentBlock)
deriving DecidableEq, Repr

/-- The value returned by MCPClientManager.callTool: extracted text, collected
images, and the untouched raw result. -/
structure CallToolParsed where
  content : String
  images : List BinaryItem
  raw : CallToolWire
deriving DecidableEq, Repr

/-- The body of callTool after the wire call returns: run the normalization
loop when a content array is present. -/
def parseCallResult (result : CallToolWire) : CallToolParsed :=
  match result.content with
  | none => { content := "", images := [], raw := result }
  | some blocks =>
    let p := normalizeBlocks blocks
    { content := p.1, images := p.2, raw := result }

/-- MCPClientManager.callTool: throw when not connected, otherwise issue the
call (its wire outcome is a parameter) and normalize. -/
def callTool (reg : Registry) (serverId _toolName : String) (_args : JsonValue)
    (wire : CallToolWire) : Except String CallToolParsed :=
  match getClient reg serverId with
  | none => Except.error (notConnectedMsg serverId)
  | some _ => Except.ok (parseCallResult wire)

/-- Leftmost-occurrence replacement on character lists, with an empty
replacement: the semantics of the JavaScript String.replace call with a plain
string pattern and empty replacement string. -/
def replaceFirstOcc : List Char → List Char → List Char
  | [], _ => []
  | c :: rest, pat =>
    if pat.isPrefixOf (c :: rest) then (c :: rest).drop pat.length
    else c :: replaceFirstOcc rest pat

/-- JavaScript s.replace(pat, empty string) on Lean strings. -/
def jsReplaceFirst (s pat : String) : String :=
  String.mk (replaceFirstOcc s.data pat.data)

/-- The tool name exposed to the model (route.ts line 93):
serverId ++ two underscores ++ original name. -/
def prefixedName (serverId toolName : String) : String :=
  serverId ++ "__" ++ toolName

/-- Recovery of the original tool name (route.ts line 246): strip the first
occurrence of the serverId-plus-separator pattern from the prefixed name. -/
def actualToolName (serverId pn : String) : String :=
  jsReplaceFirst pn (serverId ++ "__")

/-- Whether a string contains the given pattern as a substring, on character
lists. -/
def containsPatList : List Char → List Char → Bool
  | [], pat => pat.isEmpty
  | c :: rest, pat => pat.isPrefixOf (c :: rest) || containsPatList rest pat

/-- Whether a tool name contains the separator used by the prefixing scheme. -/
def containsSeparator (t : String) : Bool :=
  containsPatList t.data "__".data

/-- The per-server info stored in toolServerMap (route.ts lines 84 and 99);
serverName is set to state.serverId by the source. -/
structure ServerInfo where
  serverId : String
  serverName : String
deriving DecidableEq, Repr

/-- Every instance stored in the clients map is connected and carries a
timestamp: instances are inserted only after a successful handshake. -/
def RegInv (reg : Registry) : Prop :=
  ∀ p ∈ reg, p.2.state.status = ConnectionStatus.connected
    ∧ p.2.state.connectedAt.isSome = true

/-- A connected instance is stored for the server id. -/
def connectedInstanceExists (reg : Registry) (serverId : String) : Prop :=
  ∃ inst, regGet reg serverId = some inst
    ∧ inst.state.status = ConnectionStatus.connected

/-- A concrete server config used by several witnesses. -/
def cfgA : MCPServerConfig :=
  { id := "a", name := "A", transport := "sse", url := some "http://x" }

/-- A concrete connected state used by several witnesses. -/
def stA : ServerConnectionState :=
  { serverId := "a", status := ConnectionStatus.connected, connectedAt := some 5 }

/-- A concrete connected client instance used by several witnesses. -/
def instA : ClientInstance :=
  { config := cfgA, transport := Transport.sse "http://x", state := stA }

/-- A config with a missing required parameter, used by witnesses. -/
def cfgBad : MCPServerConfig := { id := "b", name := "B", transport := "stdio" }

/-- The text-accumulation step of the normalization loop, on strings alone. -/
def joinStep (acc s : String) : String :=
  acc ++ (if acc ≠ "" then "\n" else "") ++ s

/-- The text blocks of a content array, in order. -/
def textsOf : List ContentBlock → List String
  | [] => []
  | ContentBlock.text s :: rest => s :: textsOf rest
  | _ :: rest => textsOf rest

/-- The binary blocks of a content array, in order, with defaulted mime type. -/
def binsOf : List ContentBlock → List BinaryItem
  | [] => []
  | ContentBlock.image d mt :: rest =>
    { data := d, mimeType := mimeOrDefault mt } :: binsOf rest
  | _ :: rest => binsOf rest

/-- Newline-separated concatenation, following the words of the
specification rule: all text blocks concatenated in order, separated by a
newline. -/
def specJoin : List String → String
  | [] => ""
  | [s] => s
  | s :: rest => s ++ "\n" ++ specJoin rest

/-- The textContent demanded by the specification rule, for comparison with
the normalization loop of the source. -/
def specTextContent (blocks : List ContentBlock) : String :=
  specJoin (textsOf blocks)

/-- One function call requested by the model; args stands for the serialized
argument object (call.args with an empty-object default). -/
structure FunctionCall where
  name : String
  args : JsonValue
deriving DecidableEq, Repr

/-- One model response: the requested function calls (empty when none) and
response.text with an empty-string default. -/
structure ModelResponse where
  functionCalls : List FunctionCall
  text : String
deriving DecidableEq, Repr

/-- An uploaded binary output: public URL plus mime type. -/
structure UploadedImage where
  url : String
  mimeType : String
deriving DecidableEq, Repr

/-- One push-stream frame emitted through sendSSE. -/
inductive Frame
  | toolCallStart (id serverId serverName name : String) (args : JsonValue)
  | toolCallResult (id : String) (result : Option CallToolWire)
      (error : Option String) (images : Option (List UploadedImage))
  | text (content : String)
  | error (message : String)
  | done
deriving DecidableEq, Repr

/-- The model-facing response value pushed into functionResults: the textual
content, the raw result when the text is empty, or a synthesized error
object. -/
inductive FunctionResponseValue
  | text (s : String)
  | raw (w : CallToolWire)
  | errorObj (message : String)
deriving DecidableEq, Repr

/-- One functionResults entry. -/
structure FunctionResult where
  name : String
  response : FunctionResponseValue
deriving DecidableEq, Repr

/-- The body of the per-call loop in the orchestrator (route.ts lines
218-319): resolve the server through toolServerMap, emit tool_call_start,
run the tool (its outcome is the ex parameter), upload binary outputs when a
session and message id were supplied (the up parameter gives each upload's
outcome), emit tool_call_result, and build the model-facing result. Call ids
are modelled by a counter. -/
def processOneCall (tm : List (String × ServerInfo)) (hasSession : Bool)
    (up : String → String → Option String)
    (ex : String → String → JsonValue → Except String CallToolParsed)
    (ctr : Nat) (call : FunctionCall) : List Frame × FunctionResult :=
  match regGet tm call.name with
  | none =>
    ([Frame.toolCallStart ("call_" ++ toString ctr) "unknown" "Unknown"
        call.name call.args,
      Frame.toolCallResult ("call_" ++ toString ctr) none
        (some "Server not found for tool") none],
     { name := call.name,
       response := FunctionResponseValue.errorObj "Server not found for tool" })
  | some info =>
    match ex info.serverId (actualToolName info.serverId call.name) call.args with
    | Except.error msg =>
      ([Frame.toolCallStart ("call_" ++ toString ctr) info.serverId
          info.serverName (actualToolName info.serverId call.name) call.args,
        Frame.toolCallResult ("call_" ++ toString ctr) none (some msg) none],
       { name := call.name, response := FunctionResponseValue.errorObj msg })
    | Except.ok result =>
      let uploaded : List UploadedImage :=
        if hasSession then
          result.images.filterMap fun img =>
            (up img.data img.mimeType).map fun u =>
              { url := u, mimeType := img.mimeType }
        else []
      let responseContent : String :=
        result.content ++
          (if uploaded ≠ [] then
            "\n\n[Images generated: "
              ++ String.intercalate ", " (uploaded.map (fun i => i.url)) ++ "]"
          else "")
      ([Frame.toolCallStart ("call_" ++ toString ctr) info.serverId
          info.serverName (actualToolName info.serverId call.name) call.args,
        Frame.toolCallResult ("call_" ++ toString ctr) (some result.raw) none
          (if uploaded ≠ [] then some uploaded else none)],
       { name := call.name,
         response := if responseContent ≠ "" then
             FunctionResponseValue.text responseContent
           else FunctionResponseValue.raw result.raw })

/-- The per-round loop over all requested calls, in the order the model
listed them. -/
def processCalls (tm : List (String × ServerInfo)) (hasSession : Bool)
    (up : String → String → Option String)
    (ex : String → String → JsonValue → Except String CallToolParsed) :
    Nat → List FunctionCall → List Frame × List FunctionResult
  | _, [] => ([], [])
  | ctr, c :: rest =>
    ((processOneCall tm hasSession up ex ctr c).1
       ++ (processCalls tm hasSession up ex (ctr + 1) rest).1,
     (processOneCall tm hasSession up ex ctr c).2
       :: (processCalls tm hasSession up ex (ctr + 1) rest).2)

/-- The orchestration while-loop (route.ts lines 195-359) driven by a stub
list of model-round outcomes: a throwing model call is caught by the
surrounding try and becomes a single terminal error frame; a response with
function calls emits their frames and loops; a plain-text response emits the
text frame when nonempty, ends the loop, and done is emitted after the loop.
The functionResults of a round are accumulated for the model and do not
appear in the stream. An exhausted stub list produces no further frames. -/
def runTurn (tm : List (String × ServerInfo)) (hasSession : Bool)
    (up : String → String → Option String)
    (ex : String → String → JsonValue → Except String CallToolParsed) :
    Nat → List (Except String ModelResponse) → List Frame
  | _, [] => []
  | _, Except.error msg :: _ => [Frame.error msg]
  | ctr, Except.ok resp :: rest =>
    if resp.functionCalls ≠ [] then
      (processCalls tm hasSession up ex ctr resp.functionCalls).1
        ++ runTurn tm hasSession up ex (ctr + resp.functionCalls.length) rest
    else
      (if resp.text ≠ "" then [Frame.text resp.text] else []) ++ [Frame.done]

/-- Whether a frame is a tool_call_start or tool_call_result frame. -/
def isToolFrame : Frame → Bool
  | Frame.toolCallStart _ _ _ _ _ => true
  | Frame.toolCallResult _ _ _ _ => true
  | _ => false

/-- Whether a frame is an error frame. -/
def isErrorFrame : Frame → Bool
  | Frame.error _ => true
  | _ => false

/-- Frame sequences in which every tool_call_result is immediately preceded
by its matching tool_call_start. -/
inductive GoodSeq : List Frame → Prop
  | nil : GoodSeq []
  | pair (id sid sn nm : String) (ag : JsonValue) (res : Option CallToolWire)
      (err : Option String) (imgs : Option (List UploadedImage))
      {rest : List Frame} : GoodSeq rest →
      GoodSeq (Frame.toolCallStart id sid sn nm ag ::
               Frame.toolCallResult id res err imgs :: rest)
  | skip {f : Frame} {rest : List Frame} :
      (∀ id res err imgs, f ≠ Frame.toolCallResult id res err imgs) →
      GoodSeq rest → GoodSeq (f :: rest)

/-- Concrete stubs shared by the orchestrator claims. -/
def toolMapC : List (String × ServerInfo) :=
  [("S__t", { serverId := "S", serverName := "S" })]

/-- An upload collaborator that never succeeds; irrelevant without a session. -/
def uploadNone : String → String → Option String := fun _ _ => none

/-- A tool executor that succeeds with a plain text result. -/
def execOk : String → String → JsonValue → Except String CallToolParsed :=
  fun _ _ _ =>
    Except.ok { content := "out", images := [],
                raw := { content := some [ContentBlock.text "out"] } }

/-- A tool executor whose execution always throws. -/
def execFail : String → String → JsonValue → Except String CallToolParsed :=
  fun _ _ _ => Except.error "boom"

/-- A two-round model stub: one tool call on round 1, plain text on round 2. -/
def roundsTwo : List (Except String ModelResponse) :=
  [Except.ok { functionCalls := [{ name := "S__t", args := "argsJson" }],
               text := "" },
   Except.ok { functionCalls := [], text := "hello" }]

/-! ## Theorems -/

theorem regGet_regDelete_self {α : Type} (m : List (String × α)) (k : String) :
    regGet (regDelete m k) k = none := by
  induction m with
  | nil => rfl
  | cons p rest ih =>
    obtain ⟨k', v⟩ := p
    by_cases h : k' = k
    · simp [regDelete, h, ih]
    · simp [regDelete, regGet, h, ih]

theorem regGet_regSet_self {α : Type} (m : List (String × α)) (k : String) (v : α) :
    regGet (regSet m k v) k = some v := by
  induction m with
  | nil => simp [regSet, regGet]
  | cons p rest ih =>
    obtain ⟨k', w⟩ := p
    by_cases h : k' = k
    · simp [regSet, h, regGet]
    · simp [regSet, regGet, h, ih]

theorem regGet_mem {α : Type} {m : List (String × α)} {k : String} {v : α}
    (h : regGet m k = some v) : (k, v) ∈ m := by
  induction m with
  | nil => simp [regGet] at h
  | cons p rest ih =>
    obtain ⟨k', w⟩ := p
    by_cases hk : k' = k
    · subst hk
      simp [regGet] at h
      subst h
      exact List.mem_cons_self _ _
    · simp [regGet, hk] at h
      exact List.mem_cons_of_mem _ (ih h)

theorem mem_regSet {α : Type} {m : List (String × α)} {k : String} {v : α}
    {p : String × α} (h : p ∈ regSet m k v) : p = (k, v) ∨ p ∈ m := by
  induction m with
  | nil => simp [regSet] at h; simp [h]
  | cons q rest ih =>
    obtain ⟨k', w⟩ := q
    by_cases hk : k' = k
    · simp [regSet, hk] at h
      rcases h with h | h
      · exact Or.inl h
      · exact Or.inr (List.mem_cons_of_mem _ h)
    · simp only [regSet, if_neg hk] at h
      rcases List.mem_cons.mp h with h | h
      · exact Or.inr (by simp [h])
      · rcases ih h with h | h
        · exact Or.inl h
        · exact Or.inr (List.mem_cons_of_mem _ h)

theorem mem_regDelete {α : Type} {m : List (String × α)} {k : String}
    {p : String × α} (h : p ∈ regDelete m k) : p ∈ m := by
  induction m with
  | nil => simp [regDelete] at h
  | cons q rest ih =>
    obtain ⟨k', w⟩ := q
    by_cases hk : k' = k
    · simp only [regDelete, if_pos hk] at h
      exact List.mem_cons_of_mem _ (ih h)
    · simp only [regDelete, if_neg hk] at h
      rcases List.mem_cons.mp h with h | h
      · exact h ▸ List.mem_cons_self _ _
      · exact List.mem_cons_of_mem _ (ih h)

theorem replaceFirstOcc_append (pat t : List Char) :
    replaceFirstOcc (pat ++ t) pat = t := by
  have hp : pat.isPrefixOf (pat ++ t) = true := by
    rw [ List.isPrefixOf_iff_prefix]
    exact List.prefix_append pat t
  cases hpt : pat ++ t with
  | nil =>
    rcases List.append_eq_nil.mp hpt with ⟨h1, h2⟩
    subst h1; subst h2; rfl
  | cons c rest =>
    rw [hpt] at hp
    rw [replaceFirstOcc, if_pos hp, ← hpt]
    exact List.drop_left pat t

theorem string_data_append3 (a b c : String) :
    (a ++ b ++ c).data = (a.data ++ b.data) ++ c.data := by
  simp [String.data_append]

theorem actualToolName_prefixedName (s t : String) :
    actualToolName s (prefixedName s t) = t := by
  unfold actualToolName prefixedName jsReplaceFirst
  have h1 : (s ++ "__" ++ t).data = (s ++ "__").data ++ t.data := by
    simp [String.data_append]
  rw [h1, replaceFirstOcc_append]

/-- C1 -- Name round-trip: for a server id S and a tool name T that does not
contain the separator, the name exposed to the model is S, two underscores,
then T; resolving that prefixed name through the toolServerMap entry and
stripping the first occurrence of the serverId-plus-separator pattern
recovers exactly the pair (S, T); and the stripping step recovers the
original tool name for every tool name, even one containing the separator. -/
theorem name_round_trip (S T : String) (toolMap : List (String × ServerInfo))
    (info : ServerInfo)
    (hmap : regGet toolMap (prefixedName S T) = some info)
    (hsid : info.serverId = S)
    (hsep : containsSeparator T = false) :
    prefixedName S T = S ++ "__" ++ T
    ∧ (info.serverId, actualToolName info.serverId (prefixedName S T)) = (S, T)
    ∧ ∀ T' : String, actualToolName S (prefixedName S T') = T' := by
  refine ⟨rfl, ?_, fun T' => actualToolName_prefixedName S T'⟩
  rw [hsid, actualToolName_prefixedName]

/-- Closed witness for the name round-trip theorem. -/
theorem name_round_trip_witness :
    prefixedName "S" "t" = "S" ++ "__" ++ "t"
    ∧ (("S" : String), actualToolName "S" (prefixedName "S" "t")) = ("S", "t")
    ∧ ∀ T' : String, actualToolName "S" (prefixedName "S" T') = T' :=
  name_round_trip "S" "t" [(prefixedName "S" "t", ⟨"S", "S"⟩)] ⟨"S", "S"⟩
    (by decide) rfl (by decide)

/-- C4 -- Disconnect idempotence: for every server id, disconnect followed by
getConnectionState yields a disconnected state whatever the close outcome
was; disconnect is a no-op on an absent id and otherwise always removes the
map entry. -/
theorem disconnect_then_disconnected (reg : Registry) (s : String)
    (closeOutcome : Except String Unit) :
    getConnectionState (disconnect reg s closeOutcome) s
      = { serverId := s, status := ConnectionStatus.disconnected }
    ∧ (regGet reg s = none → disconnect reg s closeOutcome = reg)
    ∧ (∀ inst, regGet reg s = some inst →
        disconnect reg s closeOutcome = regDelete reg s) := by
  refine ⟨?_, ?_, ?_⟩
  · cases hreg : regGet reg s with
    | none => simp [disconnect, hreg, getConnectionState]
    | some inst =>
      simp [disconnect, hreg, getConnectionState, regGet_regDelete_self]
  · intro h
    simp [disconnect, h]
  · intro inst h
    simp [disconnect, h]

/-- Closed witness for the disconnect idempotence theorem. -/
theorem disconnect_then_disconnected_witness :
    getConnectionState (disconnect [] "a" (Except.error "close failed")) "a"
      = { serverId := "a", status := ConnectionStatus.disconnected } :=
  (disconnect_then_disconnected [] "a" (Except.error "close failed")).1

/-- C3 -- Connect idempotence: when a connected instance is stored for the
config id, connect returns its state and leaves the registry unchanged; the
result does not depend on the handshake parameter, so no handshake is rerun
and no second transport is created. -/
theorem connect_idempotent_on_connected (reg : Registry) (config : MCPServerConfig)
    (inst : ClientInstance) (hs : Except String Unit) (now : Nat)
    (hreg : regGet reg config.id = some inst)
    (hconn : inst.state.status = ConnectionStatus.connected) :
    connect reg config hs now = (inst.state, reg) := by
  simp [connect, hreg, hconn]

/-- Closed witness for the connect idempotence theorem. -/
theorem connect_idempotent_on_connected_witness :
    connect [("a", instA)] cfgA (Except.error "handshake would fail") 9
      = (stA, [("a", instA)]) :=
  connect_idempotent_on_connected [("a", instA)] cfgA instA
    (Except.error "handshake would fail") 9 (by decide) (by decide)

/-- C2 -- Connect never raises: under the registry invariant the returned
state is either connected with a timestamp or error with a message; when no
instance is stored, a transport-creation failure or a handshake failure each
produce the error state carrying that message and leave the registry
unchanged, and success produces the connected state stamped with now. -/
theorem connect_reports_failure_via_state (reg : Registry)
    (config : MCPServerConfig) (hs : Except String Unit) (now : Nat)
    (hinv : RegInv reg) :
    (((connect reg config hs now).1.status = ConnectionStatus.connected
        ∧ ((connect reg config hs now).1.connectedAt).isSome = true)
      ∨ ((connect reg config hs now).1.status = ConnectionStatus.error
        ∧ ((connect reg config hs now).1.error).isSome = true))
    ∧ (regGet reg config.id = none →
        (∀ msg, createTransport config = Except.error msg →
          connect reg config hs now
            = ({ serverId := config.id, status := ConnectionStatus.error,
                 error := some msg, connectedAt := none }, reg))
        ∧ (∀ tr msg, createTransport config = Except.ok tr →
            hs = Except.error msg →
          connect reg config hs now
            = ({ serverId := config.id, status := ConnectionStatus.error,
                 error := some msg, connectedAt := none }, reg))
        ∧ (∀ tr, createTransport config = Except.ok tr → hs = Except.ok () →
          (connect reg config hs now).1
            = { serverId := config.id, status := ConnectionStatus.connected,
                error := none, connectedAt := some now })) := by
  cases hreg : regGet reg config.id with
  | some inst =>
    have hmem := regGet_mem hreg
    have hconn : inst.state.status = ConnectionStatus.connected := (hinv _ hmem).1
    have hat : inst.state.connectedAt.isSome = true := (hinv _ hmem).2
    constructor
    · left
      simp only [connect, hreg]
      rw [if_pos hconn]
      exact ⟨hconn, hat⟩
    · intro habs
      cases habs
  | none =>
    cases hct : createTransport config with
    | error msg =>
      constructor
      · right
        simp [connect, hreg, connectAttempt, hct]
      · intro _
        refine ⟨?_, ?_, ?_⟩
        · intro msg2 hmsg2
          cases hmsg2
          simp [connect, hreg, connectAttempt, hct]
        · intro tr msg2 hmsg2
          cases hmsg2
        · intro tr htr
          cases htr
    | ok tr =>
      cases hs with
      | error msg =>
        constructor
        · right
          simp [connect, hreg, connectAttempt, hct]
        · intro _
          refine ⟨?_, ?_, ?_⟩
          · intro msg2 hmsg2
            cases hmsg2
          · intro tr2 msg2 htr hmsg2
            cases hmsg2
            simp [connect, hreg, connectAttempt, hct]
          · intro tr2 htr hok
            cases hok
      | ok u =>
        constructor
        · left
          simp [connect, hreg, connectAttempt, hct]
        · intro _
          refine ⟨?_, ?_, ?_⟩
          · intro msg2 hmsg2
            cases hmsg2
          · intro tr2 msg2 htr hmsg2
            cases hmsg2
          · intro tr2 htr _
            simp [connect, hreg, connectAttempt, hct]

/-- Closed witness for the connect failure-reporting theorem. -/
theorem connect_reports_failure_via_state_witness :
    connect [] cfgBad (Except.ok ()) 0
      = ({ serverId := "b", status := ConnectionStatus.error,
           error := some "STDIO transport requires a command",
           connectedAt := none }, []) :=
  ((connect_reports_failure_via_state [] cfgBad (Except.ok ()) 0
      (by intro p hp; cases hp)).2 rfl).1
    "STDIO transport requires a command" rfl

/-- C10 -- Registry map invariant: under the invariant that every stored
instance is connected, connect and disconnect preserve the invariant,
getConnectionState only ever reports disconnected or connected, and a connect
that returns an error state leaves the registry map unchanged. -/
theorem registry_map_invariant (reg : Registry) (config : MCPServerConfig)
    (hs : Except String Unit) (now : Nat) (id : String)
    (closeOutcome : Except String Unit) (hinv : RegInv reg) :
    RegInv (connect reg config hs now).2
    ∧ RegInv (disconnect reg id closeOutcome)
    ∧ ((getConnectionState reg id).status = ConnectionStatus.disconnected
        ∨ (getConnectionState reg id).status = ConnectionStatus.connected)
    ∧ ((connect reg config hs now).1.status = ConnectionStatus.error
        → (connect reg config hs now).2 = reg) := by
  refine ⟨?_, ?_, ?_, ?_⟩
  · cases hreg : regGet reg config.id with
    | some inst =>
      have hconn : inst.state.status = ConnectionStatus.connected :=
        (hinv _ (regGet_mem hreg)).1
      simp only [connect, hreg]
      rw [if_pos hconn]
      exact hinv
    | none =>
      cases hct : createTransport config with
      | error msg =>
        simp only [connect, hreg, connectAttempt, hct]
        exact hinv
      | ok tr =>
        cases hs with
        | error msg =>
          simp only [connect, hreg, connectAttempt, hct]
          exact hinv
        | ok u =>
          simp only [connect, hreg, connectAttempt, hct]
          intro p hp
          rcases mem_regSet hp with h | h
          · subst h
            exact ⟨rfl, rfl⟩
          · exact hinv _ h
  · cases hreg : regGet reg id with
    | none =>
      simp only [disconnect, hreg]
      exact hinv
    | some inst =>
      simp only [disconnect, hreg]
      intro p hp
      exact hinv _ (mem_regDelete hp)
  · cases hreg : regGet reg id with
    | none =>
      left
      simp [getConnectionState, hreg]
    | some inst =>
      right
      simp only [getConnectionState, hreg]
      exact (hinv _ (regGet_mem hreg)).1
  · cases hreg : regGet reg config.id with
    | some inst =>
      have hconn : inst.state.status = ConnectionStatus.connected :=
        (hinv _ (regGet_mem hreg)).1
      simp only [connect, hreg]
      rw [if_pos hconn]
      intro _
      rfl
    | none =>
      cases hct : createTransport config with
      | error msg =>
        simp [connect, hreg, connectAttempt, hct]
      | ok tr =>
        cases hs with
        | error msg =>
          simp [connect, hreg, connectAttempt, hct]
        | ok u =>
          simp [connect, hreg, connectAttempt, hct]

/-- Closed witness for the registry map invariant theorem. -/
theorem registry_map_invariant_witness :
    (getConnectionState [] "s").status = ConnectionStatus.disconnected
    ∨ (getConnectionState [] "s").status = ConnectionStatus.connected :=
  (registry_map_invariant [] cfgA (Except.ok ()) 5 "s" (Except.ok ())
    (by intro p hp; cases hp)).2.2.1

/-- C5 -- NotConnected gating: getClient succeeds exactly when a connected
instance is stored, every discovery and call operation throws the
not-connected error when getClient yields nothing, and each issues its
protocol call and maps the wire data when a client exists. -/
theorem ops_require_connected (reg : Registry) (id : String)
    (toolsWire : List MCPTool) (promptsWire : List MCPPrompt)
    (resourcesWire : List MCPResource) (tn : String) (args : JsonValue)
    (cw : CallToolWire) :
    ((getClient reg id).isSome ↔ connectedInstanceExists reg id)
    ∧ (getClient reg id = none →
        listTools reg id toolsWire = Except.error (notConnectedMsg id)
        ∧ listPrompts reg id promptsWire = Except.error (notConnectedMsg id)
        ∧ listResources reg id resourcesWire = Except.error (notConnectedMsg id)
        ∧ callTool reg id tn args cw = Except.error (notConnectedMsg id))
    ∧ (∀ inst, getClient reg id = some inst →
        listTools reg id toolsWire = Except.ok (toolsWire.map fun t =>
          { name := t.name, description := t.description,
            inputSchema := t.inputSchema })
        ∧ listPrompts reg id promptsWire = Except.ok (promptsWire.map fun p =>
          { name := p.name, description := p.description,
            arguments := p.arguments })
        ∧ listResources reg id resourcesWire = Except.ok (resourcesWire.map fun r =>
          { uri := r.uri, name := r.name, description := r.description,
            mimeType := r.mimeType })
        ∧ callTool reg id tn args cw = Except.ok (parseCallResult cw)) := by
  refine ⟨?_, ?_, ?_⟩
  · cases hreg : regGet reg id with
    | none =>
      simp [getClient, hreg, connectedInstanceExists]
    | some inst =>
      by_cases hst : inst.state.status = ConnectionStatus.connected
      · simp only [getClient, hreg]
        rw [if_pos hst]
        simp only [Option.isSome_some, true_iff]
        exact ⟨inst, hreg, hst⟩
      · simp only [getClient, hreg]
        rw [if_neg hst]
        constructor
        · intro h
          simp at h
        · rintro ⟨inst2, h2, hc2⟩
          rw [hreg] at h2
          cases h2
          exact absurd hc2 hst
  · intro h
    refine ⟨?_, ?_, ?_, ?_⟩ <;>
      simp [listTools, listPrompts, listResources, callTool, h]
  · intro inst h
    refine ⟨?_, ?_, ?_, ?_⟩ <;>
      simp [listTools, listPrompts, listResources, callTool, h]

/-- Closed witness for the NotConnected gating theorem. -/
theorem ops_require_connected_witness :
    listTools [] "s" [] = Except.error (notConnectedMsg "s") :=
  (((ops_require_connected [] "s" [] [] [] "t" "args" ⟨none⟩).2.1) rfl).1

theorem string_eq_of_data {s t : String} (h : s.data = t.data) : s = t := by
  cases s
  cases t
  simp_all

theorem string_append_ne_empty {a : String} (b : String) (h : a ≠ "") :
    a ++ b ≠ "" := by
  intro hc
  apply h
  have hd : a.data ++ b.data = [] := by
    have h2 := congrArg String.data hc
    simpa [String.data_append] using h2
  exact string_eq_of_data (List.append_eq_nil.mp hd).1

theorem specJoin_cons_cons (a b : String) (l : List String) :
    specJoin (a :: b :: l) = a ++ "\n" ++ specJoin (b :: l) := by
  rfl

theorem specJoin_glue (a s : String) (l : List String) :
    specJoin ((a ++ "\n" ++ s) :: l) = a ++ "\n" ++ specJoin (s :: l) := by
  cases l with
  | nil => rfl
  | cons r rs =>
    rw [specJoin_cons_cons, specJoin_cons_cons]
    simp [String.append_assoc]

theorem foldl_joinStep_ne_empty (l : List String) (acc : String) (h : acc ≠ "") :
    List.foldl joinStep acc l = specJoin (acc :: l) := by
  induction l generalizing acc with
  | nil => rfl
  | cons s rest ih =>
    have hstep : joinStep acc s = acc ++ "\n" ++ s := by
      unfold joinStep
      rw [if_pos h]
    have hne : acc ++ "\n" ++ s ≠ "" :=
      string_append_ne_empty s (string_append_ne_empty "\n" h)
    calc List.foldl joinStep acc (s :: rest)
        = List.foldl joinStep (joinStep acc s) rest := rfl
      _ = List.foldl joinStep (acc ++ "\n" ++ s) rest := by rw [hstep]
      _ = specJoin ((acc ++ "\n" ++ s) :: rest) := ih _ hne
      _ = acc ++ "\n" ++ specJoin (s :: rest) := specJoin_glue acc s rest
      _ = specJoin (acc :: s :: rest) := (specJoin_cons_cons acc s rest).symm

theorem foldl_joinStep_empty (l : List String) :
    List.foldl joinStep "" l = specJoin (l.dropWhile fun s => s == "") := by
  induction l with
  | nil => rfl
  | cons s rest ih =>
    by_cases hs : s = ""
    · subst hs
      have hstep : joinStep "" "" = "" := by
        unfold joinStep
        simp
      calc List.foldl joinStep "" ("" :: rest)
          = List.foldl joinStep (joinStep "" "") rest := rfl
        _ = List.foldl joinStep "" rest := by rw [hstep]
        _ = specJoin (rest.dropWhile fun s => s == "") := ih
        _ = specJoin (("" :: rest).dropWhile fun s => s == "") := by
            simp [List.dropWhile]
    · have hstep : joinStep "" s = s := by
        unfold joinStep
        simp
      have hb : (s == "") = false := beq_eq_false_iff_ne.mpr hs
      have hdrop : (s :: rest).dropWhile (fun s => s == "") = s :: rest := by
        simp [List.dropWhile, hb]
      calc List.foldl joinStep "" (s :: rest)
          = List.foldl joinStep (joinStep "" s) rest := rfl
        _ = List.foldl joinStep s rest := by rw [hstep]
        _ = specJoin (s :: rest) := foldl_joinStep_ne_empty rest s hs
        _ = specJoin ((s :: rest).dropWhile fun s => s == "") := by rw [hdrop]

theorem normalize_decompose (blocks : List ContentBlock) (t : String)
    (imgs : List BinaryItem) :
    List.foldl normalizeStep (t, imgs) blocks
      = (List.foldl joinStep t (textsOf blocks), imgs ++ binsOf blocks) := by
  induction blocks generalizing t imgs with
  | nil => simp [textsOf, binsOf]
  | cons b rest ih =>
    cases b with
    | text s =>
      simp only [List.foldl_cons, normalizeStep, textsOf, List.foldl_cons]
      rw [ih]
      rfl
    | image d mt =>
      simp only [List.foldl_cons, normalizeStep, textsOf, binsOf]
      rw [ih]
      simp
    | other =>
      simp only [List.foldl_cons, normalizeStep, textsOf, binsOf]
      exact ih t imgs

theorem normalizeBlocks_eq (blocks : List ContentBlock) :
    normalizeBlocks blocks
      = (specJoin ((textsOf blocks).dropWhile fun s => s == ""),
         binsOf blocks) := by
  unfold normalizeBlocks
  rw [normalize_decompose, foldl_joinStep_empty]
  rfl

/-- C6 counterexample: the normalizer does not implement the literal
newline-join rule. On the blocks [text with empty string, text with b] the
loop yields b, while joining all text blocks in order with a newline
separator yields a newline followed by b. -/
theorem normalizer_newline_counterexample :
    (normalizeBlocks [ContentBlock.text "", ContentBlock.text "b"]).1 = "b"
    ∧ specTextContent [ContentBlock.text "", ContentBlock.text "b"] = "\nb"
    ∧ (normalizeBlocks [ContentBlock.text "", ContentBlock.text "b"]).1
      ≠ specTextContent [ContentBlock.text "", ContentBlock.text "b"] := by
  refine ⟨rfl, rfl, ?_⟩
  decide

/-- C6 amended -- Result normalization: textContent is the newline-separated
concatenation of the text blocks after discarding leading empty text blocks
(a newline is only inserted when the accumulated text is nonempty), which
agrees with the claimed rule whenever no leading text block is empty;
binaryItems collects all binary blocks in order with their data and mime
type; raw is the untouched original result; zero text blocks yield the empty
string; and the concrete example of the claim holds as stated. -/
theorem normalizer_amended (blocks : List ContentBlock) (w : CallToolWire) :
    (normalizeBlocks blocks).1
      = specJoin ((textsOf blocks).dropWhile fun s => s == "")
    ∧ (((textsOf blocks).dropWhile fun s => s == "") = textsOf blocks →
        (normalizeBlocks blocks).1 = specTextContent blocks)
    ∧ (normalizeBlocks blocks).2 = binsOf blocks
    ∧ (parseCallResult w).raw = w
    ∧ (textsOf blocks = [] → (normalizeBlocks blocks).1 = "")
    ∧ normalizeBlocks
        [ContentBlock.text "a", ContentBlock.image "d" (some "image/png"),
         ContentBlock.text "b"]
      = ("a\nb", [{ data := "d", mimeType := "image/png" }]) := by
  refine ⟨?_, ?_, ?_, ?_, ?_, ?_⟩
  · rw [normalizeBlocks_eq]
  · intro hdw
    rw [normalizeBlocks_eq, hdw]
    rfl
  · rw [normalizeBlocks_eq]
  · cases hc : w.content <;> simp [parseCallResult, hc]
  · intro h
    rw [normalizeBlocks_eq, h]
    rfl
  · decide

/-- Closed witness for the amended normalization theorem. -/
theorem normalizer_amended_witness :
    (normalizeBlocks [ContentBlock.text "x", ContentBlock.other]).1
      = specTextContent [ContentBlock.text "x", ContentBlock.other] :=
  (normalizer_amended [ContentBlock.text "x", ContentBlock.other] ⟨none⟩).2.1
    (by decide)

theorem goodSeq_append {a b : List Frame} (ha : GoodSeq a) (hb : GoodSeq b) :
    GoodSeq (a ++ b) := by
  induction ha with
  | nil => simpa using hb
  | pair id sid sn nm ag res err imgs h ih =>
    simpa using GoodSeq.pair id sid sn nm ag res err imgs ih
  | skip hne h ih =>
    simpa using GoodSeq.skip hne ih

theorem goodSeq_processOneCall (tm : List (String × ServerInfo))
    (hasSession : Bool) (up : String → String → Option String)
    (ex : String → String → JsonValue → Except String CallToolParsed)
    (ctr : Nat) (call : FunctionCall) :
    GoodSeq (processOneCall tm hasSession up ex ctr call).1 := by
  cases hm : regGet tm call.name with
  | none =>
    simp only [processOneCall, hm]
    exact GoodSeq.pair _ _ _ _ _ _ _ _ GoodSeq.nil
  | some info =>
    cases hex : ex info.serverId (actualToolName info.serverId call.name) call.args with
    | error msg =>
      simp only [processOneCall, hm, hex]
      exact GoodSeq.pair _ _ _ _ _ _ _ _ GoodSeq.nil
    | ok result =>
      simp only [processOneCall, hm, hex]
      exact GoodSeq.pair _ _ _ _ _ _ _ _ GoodSeq.nil

theorem goodSeq_processCalls (tm : List (String × ServerInfo))
    (hasSession : Bool) (up : String → String → Option String)
    (ex : String → String → JsonValue → Except String CallToolParsed)
    (calls : List FunctionCall) (ctr : Nat) :
    GoodSeq (processCalls tm hasSession up ex ctr calls).1 := by
  induction calls generalizing ctr with
  | nil => exact GoodSeq.nil
  | cons c rest ih =>
    exact goodSeq_append (goodSeq_processOneCall tm hasSession up ex ctr c)
      (ih (ctr + 1))

theorem goodSeq_runTurn (tm : List (String × ServerInfo)) (hasSession : Bool)
    (up : String → String → Option String)
    (ex : String → String → JsonValue → Except String CallToolParsed)
    (rounds : List (Except String ModelResponse)) (ctr : Nat) :
    GoodSeq (runTurn tm hasSession up ex ctr rounds) := by
  induction rounds generalizing ctr with
  | nil => exact GoodSeq.nil
  | cons r rest ih =>
    cases r with
    | error msg =>
      exact GoodSeq.skip (by intro id res err imgs h; cases h) GoodSeq.nil
    | ok resp =>
      by_cases hc : resp.functionCalls = []
      · simp only [runTurn, hc, ne_eq, not_true_eq_false, if_false]
        by_cases ht : resp.text = ""
        · simp only [ht, ne_eq, not_true_eq_false, if_false, List.nil_append]
          exact GoodSeq.skip (by intro id res err imgs h; cases h) GoodSeq.nil
        · rw [if_pos ht]
          exact GoodSeq.skip (by intro id res err imgs h; cases h)
            (GoodSeq.skip (by intro id res err imgs h; cases h) GoodSeq.nil)
      · simp only [runTurn, ne_eq, hc, not_false_eq_true, if_true]
        exact goodSeq_append
          (goodSeq_processCalls tm hasSession up ex resp.functionCalls ctr)
          (ih _)

theorem goodSeq_precede {fs : List Frame} (h : GoodSeq fs) :
    ∀ (j : Nat) (id : String) (res : Option CallToolWire) (err : Option String)
      (imgs : Option (List UploadedImage)),
      fs.get? j = some (Frame.toolCallResult id res err imgs) →
      ∃ i, i < j ∧ ∃ sid sn nm ag,
        fs.get? i = some (Frame.toolCallStart id sid sn nm ag) := by
  induction h with
  | nil =>
    intro j id res err imgs hj
    simp at hj
  | pair id0 sid sn nm ag res0 err0 imgs0 hrest ih =>
    intro j id res err imgs hj
    match j with
    | 0 =>
      simp [List.get?] at hj
    | 1 =>
      simp only [List.get?] at hj
      have hid : id = id0 := by
        cases hj
        rfl
      subst hid
      exact ⟨0, by omega, sid, sn, nm, ag, rfl⟩
    | Nat.succ (Nat.succ n) =>
      obtain ⟨i, hi, sid2, sn2, nm2, ag2, hstart⟩ :=
        ih n id res err imgs (by simpa [List.get?] using hj)
      exact ⟨i + 2, by omega, sid2, sn2, nm2, ag2, by simpa [List.get?] using hstart⟩
  | skip hne hrest ih =>
    intro j id res err imgs hj
    match j with
    | 0 =>
      simp only [List.get?] at hj
      have : _ = Frame.toolCallResult id res err imgs := Option.some.inj hj
      exact absurd this (hne id res err imgs)
    | Nat.succ n =>
      obtain ⟨i, hi, sid2, sn2, nm2, ag2, hstart⟩ :=
        ih n id res err imgs (by simpa [List.get?] using hj)
      exact ⟨i + 1, by omega, sid2, sn2, nm2, ag2, by simpa [List.get?] using hstart⟩

/-- C7 -- Orchestration loop: with the two-round stub (one tool call, then
plain text) the emitted frame sequence is exactly tool_call_start,
tool_call_result, text, done; and in every run of the loop, a
tool_call_result frame for a call id is preceded by a tool_call_start frame
for the same id. -/
theorem orchestration_two_round_frames :
    runTurn toolMapC false uploadNone execOk 0 roundsTwo
      = [Frame.toolCallStart "call_0" "S" "S" "t" "argsJson",
         Frame.toolCallResult "call_0"
           (some { content := some [ContentBlock.text "out"] }) none none,
         Frame.text "hello", Frame.done]
    ∧ ∀ (tm : List (String × ServerInfo)) (hasSession : Bool)
        (up : String → String → Option String)
        (ex : String → String → JsonValue → Except String CallToolParsed)
        (ctr : Nat) (rounds : List (Except String ModelResponse))
        (j : Nat) (id : String) (res : Option CallToolWire)
        (err : Option String) (imgs : Option (List UploadedImage)),
        (runTurn tm hasSession up ex ctr rounds).get? j
            = some (Frame.toolCallResult id res err imgs) →
        ∃ i, i < j ∧ ∃ sid sn nm ag,
          (runTurn tm hasSession up ex ctr rounds).get? i
            = some (Frame.toolCallStart id sid sn nm ag) := by
  constructor
  · decide
  · intro tm hasSession up ex ctr rounds j id res err imgs hj
    exact goodSeq_precede (goodSeq_runTurn tm hasSession up ex rounds ctr)
      j id res err imgs hj

/-- Closed witness for the orchestration frame-order theorem. -/
theorem orchestration_two_round_frames_witness :
    ∃ i, i < 1 ∧ ∃ sid sn nm ag,
      (runTurn toolMapC false uploadNone execOk 0 roundsTwo).get? i
        = some (Frame.toolCallStart "call_0" sid sn nm ag) :=
  orchestration_two_round_frames.2 toolMapC false uploadNone execOk 0 roundsTwo
    1 "call_0" (some { content := some [ContentBlock.text "out"] }) none none
    (by decide)

theorem isToolFrame_processOneCall (tm : List (String × ServerInfo))
    (hasSession : Bool) (up : String → String → Option String)
    (ex : String → String → JsonValue → Except String CallToolParsed)
    (ctr : Nat) (call : FunctionCall) :
    ∀ f ∈ (processOneCall tm hasSession up ex ctr call).1, isToolFrame f = true := by
  intro f hf
  cases hm : regGet tm call.name with
  | none =>
    simp only [processOneCall, hm] at hf
    rcases List.mem_cons.mp hf with h | hf2
    · subst h; rfl
    · rcases List.mem_cons.mp hf2 with h | h
      · subst h; rfl
      · cases h
  | some info =>
    cases hex : ex info.serverId (actualToolName info.serverId call.name) call.args with
    | error msg =>
      simp only [processOneCall, hm, hex] at hf
      rcases List.mem_cons.mp hf with h | hf2
      · subst h; rfl
      · rcases List.mem_cons.mp hf2 with h | h
        · subst h; rfl
        · cases h
    | ok result =>
      simp only [processOneCall, hm, hex] at hf
      rcases List.mem_cons.mp hf with h | hf2
      · subst h; rfl
      · rcases List.mem_cons.mp hf2 with h | h
        · subst h; rfl
        · cases h

theorem isToolFrame_processCalls (tm : List (String × ServerInfo))
    (hasSession : Bool) (up : String → String → Option String)
    (ex : String → String → JsonValue → Except String CallToolParsed)
    (calls : List FunctionCall) (ctr : Nat) :
    ∀ f ∈ (processCalls tm hasSession up ex ctr calls).1, isToolFrame f = true := by
  induction calls generalizing ctr with
  | nil =>
    intro f hf
    cases hf
  | cons c rest ih =>
    intro f hf
    simp only [processCalls] at hf
    rcases List.mem_append.mp hf with h | h
    · exact isToolFrame_processOneCall tm hasSession up ex ctr c f h
    · exact ih (ctr + 1) f h

theorem toolFrame_not_error_done {f : Frame} (h : isToolFrame f = true) :
    isErrorFrame f = false ∧ f ≠ Frame.done := by
  cases f <;> simp_all [isToolFrame, isErrorFrame]

/-- Properties of a run that emitted an error frame: the error frame is the
last frame, done is never emitted, and exactly one error frame appears. -/
theorem runTurn_error_terminal (tm : List (String × ServerInfo))
    (hasSession : Bool) (up : String → String → Option String)
    (ex : String → String → JsonValue → Except String CallToolParsed)
    (msg : String) :
    ∀ (rounds : List (Except String ModelResponse)) (ctr : Nat),
      Frame.error msg ∈ runTurn tm hasSession up ex ctr rounds →
      (runTurn tm hasSession up ex ctr rounds).getLast? = some (Frame.error msg)
      ∧ Frame.done ∉ runTurn tm hasSession up ex ctr rounds
      ∧ (runTurn tm hasSession up ex ctr rounds).countP isErrorFrame = 1 := by
  intro rounds
  induction rounds with
  | nil =>
    intro ctr h
    cases h
  | cons r rest ih =>
    intro ctr h
    cases r with
    | error m =>
      simp only [runTurn] at h ⊢
      have hm : Frame.error msg = Frame.error m := by
        rcases List.mem_cons.mp h with h1 | h1
        · exact h1
        · cases h1
      cases hm
      refine ⟨rfl, ?_, by simp [isErrorFrame]⟩
      intro hd
      rcases List.mem_cons.mp hd with h1 | h1
      · cases h1
      · cases h1
    | ok resp =>
      by_cases hc : resp.functionCalls = []
      · exfalso
        simp only [runTurn, hc, ne_eq, not_true_eq_false, if_false] at h
        by_cases ht : resp.text = ""
        · simp [ht] at h
        · rw [if_pos ht] at h
          rcases List.mem_cons.mp h with h1 | h1
          · cases h1
          · rcases List.mem_cons.mp h1 with h2 | h2
            · cases h2
            · cases h2
      · simp only [runTurn, ne_eq, hc, not_false_eq_true, if_true] at h ⊢
        have hpc := isToolFrame_processCalls tm hasSession up ex
          resp.functionCalls ctr
        have hrec : Frame.error msg
            ∈ runTurn tm hasSession up ex (ctr + resp.functionCalls.length) rest := by
          rcases List.mem_append.mp h with h1 | h1
          · have := (toolFrame_not_error_done (hpc _ h1)).1
            simp [isErrorFrame] at this
          · exact h1
        obtain ⟨h1, h2, h3⟩ := ih _ hrec
        refine ⟨?_, ?_, ?_⟩
        · simp [List.getLast?_append, h1]
        · intro hd
          rcases List.mem_append.mp hd with hd1 | hd1
          · exact (toolFrame_not_error_done (hpc _ hd1)).2 rfl
          · exact h2 hd1
        · rw [List.countP_append]
          have hz : (processCalls tm hasSession up ex ctr
              resp.functionCalls).1.countP isErrorFrame = 0 := by
            rw [List.countP_eq_zero]
            intro f hf
            simp [(toolFrame_not_error_done (hpc f hf)).1]
          rw [hz, h3]

/-- C9 -- Fatal model failure: a model call that throws makes the stream emit
exactly one error frame carrying the failure message and nothing else in
that round; in every run, an emitted error frame is the last frame of the
stream, no done frame is emitted, and the error frame count is one. -/
theorem fatal_model_failure (tm : List (String × ServerInfo))
    (hasSession : Bool) (up : String → String → Option String)
    (ex : String → String → JsonValue → Except String CallToolParsed)
    (ctr : Nat) (msg : String)
    (rest rounds : List (Except String ModelResponse)) :
    runTurn tm hasSession up ex ctr (Except.error msg :: rest) = [Frame.error msg]
    ∧ (Frame.error msg ∈ runTurn tm hasSession up ex ctr rounds →
        (runTurn tm hasSession up ex ctr rounds).getLast?
            = some (Frame.error msg)
        ∧ Frame.done ∉ runTurn tm hasSession up ex ctr rounds
        ∧ (runTurn tm hasSession up ex ctr rounds).countP isErrorFrame = 1) := by
  constructor
  · rfl
  · exact runTurn_error_terminal tm hasSession up ex msg rounds ctr

/-- Closed witness for the fatal model failure theorem. -/
theorem fatal_model_failure_witness :
    Frame.done ∉ runTurn toolMapC false uploadNone execOk 0
      [Except.error "model down"] :=
  ((fatal_model_failure toolMapC false uploadNone execOk 0 "model down" []
      [Except.error "model down"]).2 (by decide)).2.1

/-- C8 -- Non-fatal tool failure: a tool invocation whose execution throws
yields a tool_call_result frame carrying the error message and no result
field, with the error object synthesized as the model-facing result; the
loop continues past the failing round regardless, and the concrete run with
a throwing executor still ends in done. -/
theorem tool_failure_nonfatal (tm : List (String × ServerInfo))
    (hasSession : Bool) (up : String → String → Option String)
    (ex : String → String → JsonValue → Except String CallToolParsed)
    (ctr : Nat) (call : FunctionCall) (info : ServerInfo) (msg : String)
    (resp : ModelResponse) (rest : List (Except String ModelResponse))
    (hmap : regGet tm call.name = some info)
    (hex : ex info.serverId (actualToolName info.serverId call.name) call.args
      = Except.error msg)
    (hmsg : msg ≠ "") :
    processOneCall tm hasSession up ex ctr call
      = ([Frame.toolCallStart ("call_" ++ toString ctr) info.serverId
            info.serverName (actualToolName info.serverId call.name) call.args,
          Frame.toolCallResult ("call_" ++ toString ctr) none (some msg) none],
         { name := call.name, response := FunctionResponseValue.errorObj msg })
    ∧ (resp.functionCalls ≠ [] →
        runTurn tm hasSession up ex ctr (Except.ok resp :: rest)
          = (processCalls tm hasSession up ex ctr resp.functionCalls).1
            ++ runTurn tm hasSession up ex
                (ctr + resp.functionCalls.length) rest)
    ∧ runTurn toolMapC false uploadNone execFail 0 roundsTwo
      = [Frame.toolCallStart "call_0" "S" "S" "t" "argsJson",
         Frame.toolCallResult "call_0" none (some "boom") none,
         Frame.text "hello", Frame.done] := by
  refine ⟨?_, ?_, ?_⟩
  · simp only [processOneCall, hmap, hex]
  · intro hc
    simp only [runTurn, ne_eq, hc, not_false_eq_true, if_true]
  · decide

/-- Closed witness for the non-fatal tool failure theorem. -/
theorem tool_failure_nonfatal_witness :
    processOneCall toolMapC false uploadNone execFail 0
        { name := "S__t", args := "argsJson" }
      = ([Frame.toolCallStart "call_0" "S" "S" "t" "argsJson",
          Frame.toolCallResult "call_0" none (some "boom") none],
         { name := "S__t", response := FunctionResponseValue.errorObj "boom" }) :=
  (tool_failure_nonfatal toolMapC false uploadNone execFail 0
    { name := "S__t", args := "argsJson" } { serverId := "S", serverName := "S" }
    "boom" { functionCalls := [{ name := "S__t", args := "argsJson" }], text := "" }
    [] rfl rfl (by decide)).1
